import Mathlib

/-! # reddit-api-demo: aggregate store snapshots and rate-limit recalibration

A shallow embedding of `controller/processor.go` (the per-subreddit store, its
`Stats` snapshot and `init`), of `controller/controller.go` (`Stats`), of
`client/client.go` (`setRateLimit`) and of `handler/handler.go` (`statsHandler`).

Modelling conventions.

* Go's `int` is the 64-bit two's complement integer: values are `Int`s, and
  arithmetic that can overflow is wrapped by `wrapInt`.
* A Go `map[string]T` is an association list `List (String × T)`.  The order of
  the list is the order in which a `range` loop visits the map; Go leaves that
  order unspecified, so statements about a map hold for every list order.
* A Go run-time panic is the result `none`.
* `slices.SortFunc` is the standard library's pattern-defeating quicksort; on
  slices of at most 12 elements it runs `insertionSortCmpFunc` and nothing
  else, which is the function embedded here.  On longer slices the library
  may order entries that compare equal differently; what is proved below for
  stores of any size (the result is a rearrangement of the input, and is in
  key order when the comparison orders by a key) is the documented contract of
  `slices.SortFunc`, and the evaluations at concrete stores all have at most
  three entries.
* The locks (`linksMu`, `usersMu`) serialise the map updates; the embedding is
  the sequential semantics of each critical section.
* An interface (`Processor`, `Controller`, `client.Client`) is a structure of
  the methods that are called through it; what a call into the network or into
  a parser of the standard library returns (`GetLinkListing`, `url.ParseQuery`,
  `time.Parse`, `strconv.ParseFloat`) is an input.
-/

namespace RedditDemo

/-! ## Machine integers -/

/-- Wrap-around of a mathematical integer into the range of Go's 64-bit `int`. -/
def wrapInt (x : Int) : Int := (x + 2 ^ 63) % 2 ^ 64 - 2 ^ 63

/-- The values a Go `int` can hold. -/
def isGoInt (x : Int) : Prop := -(2 ^ 63) ≤ x ∧ x < 2 ^ 63

instance (x : Int) : Decidable (isGoInt x) := by
  unfold isGoInt; exact inferInstance

/-! ## models/models.go -/

structure LinkData where
  Name : String
  Subreddit : String
  AuthorFullname : String
  Title : String
  Author : String
  Ups : Int
  deriving DecidableEq, Repr

structure Link where
  Kind : String
  Data : LinkData
  deriving DecidableEq, Repr

structure LinkStats where
  Name : String
  Title : String
  Author : String
  UpVotes : Int
  deriving DecidableEq, Repr

structure UserStats where
  Name : String
  PostCount : Int
  deriving DecidableEq, Repr

/-! ## Go maps with string keys -/

/-- The map read `v, ok := m[k]`. -/
def mapGet {β : Type} : List (String × β) → String → Option β
  | [], _ => none
  | (k', v) :: rest, k => if k' = k then some v else mapGet rest k

/-- The map write `m[k] = v`: overwrite the entry of `k`, or add one. -/
def mapSet {β : Type} : List (String × β) → String → β → List (String × β)
  | [], k, v => [(k, v)]
  | (k', v') :: rest, k, v =>
    if k' = k then (k, v) :: rest else (k', v') :: mapSet rest k v

/-! ## slices.SortFunc -/

/-- The inner loop of `insertionSortCmpFunc`: `x` is `data[j]` and the list is
`data[j-1], data[j-2], ..., data[a]`; `x` moves left while `cmp x data[j-1] < 0`. -/
def insertBack {α : Type} (cmp : α → α → Int) (x : α) : List α → List α
  | [] => [x]
  | y :: ys => if cmp x y < 0 then y :: insertBack cmp x ys else x :: y :: ys

/-- The outer loop of `insertionSortCmpFunc`; the accumulator is the sorted
prefix `data[a..i)`, held back to front. -/
def insertionSortCmpFunc {α : Type} (cmp : α → α → Int) (data : List α) : List α :=
  (data.foldl (fun rev x => insertBack cmp x rev) []).reverse

/-- The call `slices.SortFunc(x, cmp)`. -/
def SortFunc {α : Type} (cmp : α → α → Int) (x : List α) : List α :=
  insertionSortCmpFunc cmp x

/-! ## controller/processor.go -/

structure user where
  name : String
  links : List (String × Link)
  deriving DecidableEq, Repr

structure processor where
  links : List (String × Link)
  users : List (String × user)
  deriving DecidableEq, Repr

/-- The maps of `NewProcessor`: both empty. -/
def NewProcessor : processor := { links := [], users := [] }

/-- The comparison `func(a, b models.LinkStats) int { return b.UpVotes - a.UpVotes }`. -/
def linkCmp (a b : LinkStats) : Int := wrapInt (b.UpVotes - a.UpVotes)

/-- The comparison `func(a, b models.UserStats) int { return b.PostCount - a.PostCount }`. -/
def userCmp (a b : UserStats) : Int := wrapInt (b.PostCount - a.PostCount)

/-- The body of the first `range` loop of `Stats`. -/
def toLinkStats (l : Link) : LinkStats :=
  { Name := l.Data.Name, Title := l.Data.Title, Author := l.Data.Author, UpVotes := l.Data.Ups }

/-- The body of the second `range` loop of `Stats`. -/
def toUserStats (u : user) : UserStats :=
  { Name := u.name, PostCount := (u.links.length : Int) }

/-- The statement `if len(s) > limit { s = s[0:limit] }`; the slice expression
panics when `limit` is negative. -/
def applyLimit {α : Type} (s : List α) (limit : Int) : Option (List α) :=
  if (s.length : Int) > limit then
    (if limit < 0 then none else some (s.take limit.toNat))
  else some s

/-- The result of `processor.Stats`: the two slices and the `error` (`none` is `nil`). -/
abbrev StatsResult := List LinkStats × List UserStats × Option String

/-- The method `processor.Stats`. -/
def Stats (p : processor) (limit : Int) : Option StatsResult :=
  let links := SortFunc linkCmp (p.links.map (fun e => toLinkStats e.2))
  let users := SortFunc userCmp (p.users.map (fun e => toUserStats e.2))
  match applyLimit links limit with
  | none => none
  | some links =>
    match applyLimit users limit with
    | none => none
    | some users => some (links, users, none)

/-- The method `processor.processLink`. -/
def processLink (p : processor) (link : Link) : processor :=
  { p with links := mapSet p.links link.Data.Name link }

/-- The method `processor.processUser`. -/
def processUser (p : processor) (link : Link) : processor :=
  let u : user :=
    match mapGet p.users link.Data.AuthorFullname with
    | some u => u
    | none => { name := link.Data.Author, links := [] }
  let u : user := { u with links := mapSet u.links link.Data.Name link }
  { p with users := mapSet p.users link.Data.AuthorFullname u }

/-! ## Fixtures of controller_test.go -/

def mkLink (name : String) (ups : Int) : Link :=
  { Kind := "", Data := { Name := name, Subreddit := "", AuthorFullname := "", Title := "",
                          Author := "", Ups := ups } }

def l1 : Link := mkLink "l1" 1
def l2 : Link := mkLink "l2" 2
def l3 : Link := mkLink "l3" 3
def u1 : user := { name := "u1", links := [("l1", l1)] }
def u2 : user := { name := "u2", links := [("l2", l2), ("l3", l3)] }

/-- The link `l` as posted by the author with the given id and display name. -/
def byAuthor (l : Link) (fullname author : String) : Link :=
  { l with Data := { l.Data with AuthorFullname := fullname, Author := author } }

/-- The number of distinct item ids (`Data.Name`) among the links of the
sequence whose `AuthorFullname` is `author`. -/
def distinctItemCount (seq : List Link) (author : String) : Nat :=
  ((seq.filter (fun l => decide (l.Data.AuthorFullname = author))).map
    (fun l => l.Data.Name)).dedup.length

/-! ## Well-formed stores -/

/-- The differences of the scores of a links map all fit a Go `int`. -/
def scoresFit (ls : List (String × Link)) : Prop :=
  ∀ a ∈ ls, ∀ b ∈ ls, isGoInt (b.2.Data.Ups - a.2.Data.Ups)

instance (ls : List (String × Link)) : Decidable (scoresFit ls) := by
  unfold scoresFit; exact inferInstance

/-- The contributors of a users map each hold fewer than 2^63 links. -/
def sizesFit (us : List (String × user)) : Prop :=
  ∀ e ∈ us, (e.2.links.length : Int) < 2 ^ 63

instance (us : List (String × user)) : Decidable (sizesFit us) := by
  unfold sizesFit; exact inferInstance

/-! ## client/client.go -/

/-- A `float64`: a number, an infinity or NaN.  Arithmetic on numbers is exact
(rounding is left out) and the two zeros are one value. -/
inductive Float64 where
  | nan : Float64
  | negInf : Float64
  | num (q : ℚ) : Float64
  | posInf : Float64
  deriving DecidableEq

namespace Float64

/-- The product `x * y` of IEEE 754. -/
def mul : Float64 → Float64 → Float64
  | nan, _ => nan
  | _, nan => nan
  | num a, num b => num (a * b)
  | num a, posInf => if a = 0 then nan else if 0 < a then posInf else negInf
  | num a, negInf => if a = 0 then nan else if 0 < a then negInf else posInf
  | posInf, num b => if b = 0 then nan else if 0 < b then posInf else negInf
  | negInf, num b => if b = 0 then nan else if 0 < b then negInf else posInf
  | posInf, posInf => posInf
  | posInf, negInf => negInf
  | negInf, posInf => negInf
  | negInf, negInf => posInf

/-- The quotient `x / y` of IEEE 754 (a zero divisor is `+0`). -/
def div : Float64 → Float64 → Float64
  | nan, _ => nan
  | _, nan => nan
  | num a, num b =>
    if b = 0 then (if a = 0 then nan else if 0 < a then posInf else negInf) else num (a / b)
  | num _, posInf => num 0
  | num _, negInf => num 0
  | posInf, num b => if 0 ≤ b then posInf else negInf
  | negInf, num b => if 0 ≤ b then negInf else posInf
  | posInf, posInf => nan
  | posInf, negInf => nan
  | negInf, posInf => nan
  | negInf, negInf => nan

/-- The comparison `x <= y` of IEEE 754: false as soon as one side is NaN. -/
def le : Float64 → Float64 → Bool
  | nan, _ => false
  | _, nan => false
  | negInf, _ => true
  | _, posInf => true
  | num a, num b => decide (a ≤ b)
  | num _, negInf => false
  | posInf, negInf => false
  | posInf, num _ => false

end Float64

/-- The function `math.Min`. -/
def mathMin : Float64 → Float64 → Float64
  | .negInf, _ => .negInf
  | _, .negInf => .negInf
  | .nan, _ => .nan
  | _, .nan => .nan
  | .posInf, y => y
  | x, .posInf => x
  | .num a, .num b => .num (min a b)

/-- The conversion `float64(n)` of an `int`. -/
def float64 (n : Int) : Float64 := .num (n : ℚ)

/-- The constant `limitPercentage`. -/
def limitPercentage : Float64 := .num (9 / 10)

/-- The constant `maxRate`. -/
def maxRate : Float64 := .num 2

/-- The part of `rate.Limiter` the client writes: its limit and its burst. -/
structure Limiter where
  limit : Float64
  burst : Int
  deriving DecidableEq

/-- The method `(*rate.Limiter).SetLimit`. -/
def Limiter.SetLimit (lim : Limiter) (newLimit : Float64) : Limiter :=
  { lim with limit := newLimit }

/-- The struct `client`; a `time.Time` is an instant counted in seconds. -/
structure client where
  token : String
  latestLimit : Int
  limiter : Limiter
  deriving DecidableEq

/-- The constructor `NewClient`, given the configured token and `time.Now()`.
The limit `100/60` is a quotient of integer constants, that is 1. -/
def NewClient (token : String) (now : Int) : Option client :=
  if token = "" then none
  else some { token := token, latestLimit := now,
              limiter := { limit := float64 (100 / 60), burst := 1 } }

/-- What the three parsers of `setRateLimit` return on a response header:
`time.Parse(time.RFC1123, header.Get("Date"))`,
`strconv.Atoi(header.Get("X-RateLimit-Reset"))` and
`strconv.ParseFloat(header.Get("X-RateLimit-Remaining"), 64)`; `none` is a
parse error. -/
structure RateHeader where
  date : Option Int
  reset : Option Int
  remaining : Option Float64

/-- The method `client.setRateLimit`. -/
def setRateLimit (c : client) (header : RateHeader) : client :=
  match header.date with
  | none => c
  | some date =>
    if date < c.latestLimit then c
    else
      match header.reset with
      | none => c
      | some reset =>
        match header.remaining with
        | none => c
        | some remaining =>
          let newLimit := mathMin maxRate ((limitPercentage.mul remaining).div (float64 reset))
          { c with limiter := c.limiter.SetLimit newLimit }

/-- A well-formed rate-limit feedback: all three fields parse. -/
def feedback (t : Int) (remaining : ℚ) (reset : Int) : RateHeader :=
  { date := some t, reset := some reset, remaining := some (.num remaining) }

/-! ## controller/controller.go -/

/-- The interface `Processor`, reduced to its method `Stats`; a panic of the
call is `none`. -/
structure Processor where
  Stats : Int → Option StatsResult

/-- The struct `processor` as an implementation of the interface `Processor`. -/
def processor.asProcessor (p : processor) : Processor := { Stats := fun limit => Stats p limit }

/-- The struct `controller`: the map of the processors by subreddit name. -/
structure controller where
  processors : List (String × Processor)

/-- The maps of `NewController`: no processor. -/
def NewController : controller := { processors := [] }

/-- The method `controller.Stats`; the two `nil` slices are empty lists. -/
def controller.Stats (c : controller) (subreddit : String) (limit : Int) : Option StatsResult :=
  match mapGet c.processors subreddit with
  | none => some ([], [], some "subreddit not configured")
  | some p => p.Stats limit

/-- The interface `Controller`, reduced to its method `Stats`. -/
structure Controller where
  Stats : String → Int → Option StatsResult

/-- The struct `controller` as an implementation of the interface `Controller`. -/
def controller.asController (c : controller) : Controller :=
  { Stats := fun subreddit limit => c.Stats subreddit limit }

/-! ## controller/processor.go: the starting link -/

structure ListingData where
  After : Option String
  Before : Option String
  Children : List Link
  deriving DecidableEq, Repr

structure Listing where
  Kind : String
  Data : ListingData
  deriving DecidableEq, Repr

/-- The type `url.Values`, a `map[string][]string`. -/
abbrev Values := List (String × List String)

/-- The method `url.Values.Get`: the first value of the key, or the empty string. -/
def Values.Get (v : Values) (key : String) : String :=
  match mapGet v key with
  | none => ""
  | some [] => ""
  | some (x :: _) => x

/-- The interface `client.Client`, reduced to `GetLinkListing`: what one call
with the given url and values returns, the listing and the `error`. -/
structure Client where
  GetLinkListing : String → Values → Listing × Option String

structure subredditConfig where
  Name : String
  Start : String
  deriving DecidableEq, Repr

/-- The function `subredditURL`. -/
def subredditURL (subreddit : String) (sort : String) : String :=
  "https://oauth.reddit.com/r/" ++ subreddit ++ "/" ++ sort

/-- The method `processor.init`, on the client and the config of the processor;
the result is `(start, err)`. -/
def init (c : Client) (config : subredditConfig) : String × Option String :=
  let values : Values := [("limit", ["1"])]
  match c.GetLinkListing (subredditURL config.Name "new") values with
  | (_, some err) => ("", some err)
  | (listing, none) =>
    match listing.Data.Children with
    | [] => ("", none)
    | first :: _ => (first.Data.Name, none)

/-! ## handler/handler.go -/

/-- The function `strconv.Atoi`: an optional sign, then one or more decimal
digits, the value within the range of `int`; `none` is an error. -/
def Atoi (s : String) : Option Int :=
  let digits : List Char :=
    match s.toList with
    | '-' :: rest => rest
    | '+' :: rest => rest
    | cs => cs
  if digits = [] then none
  else if digits.all (fun ch => decide ('0' ≤ ch ∧ ch ≤ '9')) then
    let n : Int := digits.foldl (fun acc ch => acc * 10 + ((ch.toNat : Int) - 48)) 0
    let v : Int := if s.toList.head? = some '-' then -n else n
    if -(2 ^ 63) ≤ v ∧ v < 2 ^ 63 then some v else none
  else none

/-- The number written by a string of decimal digits, most significant first. -/
def decimalValue (ds : List Char) : Nat :=
  Nat.ofDigits 10 (ds.reverse.map (fun ch => ch.toNat - 48))

/-- The string `s` is a valid integer with the value `n`: an optional sign `+`
or `-`, then one or more decimal digits, and the number they write, negated
after `-`, is `n` and fits a Go `int`. -/
def validInt (s : String) (n : Int) : Prop :=
  ∃ ds : List Char, ds ≠ [] ∧ (∀ ch ∈ ds, '0' ≤ ch ∧ ch ≤ '9') ∧ isGoInt n ∧
    ((s.toList = ds ∧ n = (decimalValue ds : Int)) ∨
     (s.toList = '+' :: ds ∧ n = (decimalValue ds : Int)) ∨
     (s.toList = '-' :: ds ∧ n = -(decimalValue ds : Int)))

/-- The struct `models.Stats`. -/
structure models.Stats where
  Posts : List LinkStats
  Users : List UserStats
  deriving DecidableEq, Repr

/-- What the handler writes: the line of `http.Error`, or the value given to the
JSON encoder. -/
inductive ResponseBody where
  | text (msg : String) : ResponseBody
  | json (stats : models.Stats) : ResponseBody
  deriving DecidableEq, Repr

structure Response where
  status : Nat
  body : ResponseBody
  deriving DecidableEq, Repr

/-- The struct `handler`. -/
structure handler where
  controller : Controller

/-- The part of `http.Request` the handler reads: the result of
`url.ParseQuery(r.URL.RawQuery)`, the values or the error. -/
structure Request where
  query : Except String Values

/-- The method `handler.statsHandler`; a panic of the controller is `none`. -/
def statsHandler (h : handler) (r : Request) : Option Response :=
  match r.query with
  | .error err => some { status := 400, body := .text err }
  | .ok params =>
    let limit : Int :=
      match Atoi (Values.Get params "limit") with
      | some n => n
      | none => 5
    match h.controller.Stats (Values.Get params "sub") limit with
    | none => none
    | some (_, _, some err) => some { status := 500, body := .text err }
    | some (links, users, none) =>
      some { status := 200, body := .json { Posts := links, Users := users } }

/-- A controller that answers every call with one item recording the arguments
it was called with. -/
def recordingController : Controller :=
  { Stats := fun subreddit limit =>
      some ([{ Name := subreddit, Title := "", Author := "", UpVotes := limit }], [], none) }

end RedditDemo

namespace RedditDemo

/-! ## Lemmas: machine integers -/

theorem wrapInt_of_isGoInt {x : Int} (h : isGoInt x) : wrapInt x = x := by
  unfold isGoInt at h
  unfold wrapInt
  omega

/-! ## Lemmas: the sort -/

section Sorting

variable {α : Type}

theorem insertBack_perm (cmp : α → α → Int) (x : α) (l : List α) :
    (insertBack cmp x l).Perm (x :: l) := by
  induction l with
  | nil => exact List.Perm.refl _
  | cons y ys ih =>
    simp only [insertBack]
    split
    · exact (List.Perm.cons y ih).trans (List.Perm.swap x y ys)
    · exact List.Perm.refl _

theorem foldl_insertBack_perm (cmp : α → α → Int) (l : List α) :
    ∀ acc : List α, (l.foldl (fun rev x => insertBack cmp x rev) acc).Perm (l ++ acc) := by
  induction l with
  | nil => intro acc; exact List.Perm.refl _
  | cons x xs ih =>
    intro acc
    simp only [List.foldl_cons, List.cons_append]
    exact (ih (insertBack cmp x acc)).trans
      ((List.Perm.append_left xs (insertBack_perm cmp x acc)).trans List.perm_middle)

theorem SortFunc_perm (cmp : α → α → Int) (l : List α) : (SortFunc cmp l).Perm l := by
  unfold SortFunc insertionSortCmpFunc
  have h := foldl_insertBack_perm cmp l []
  rw [List.append_nil] at h
  exact (List.reverse_perm _).trans h

theorem SortFunc_length (cmp : α → α → Int) (l : List α) : (SortFunc cmp l).length = l.length :=
  (SortFunc_perm cmp l).length_eq

theorem insertBack_pairwise (cmp : α → α → Int) (key : α → Int) (x : α) (rev : List α)
    (hcmp : ∀ y ∈ rev, (cmp x y < 0 ↔ key y < key x))
    (hs : rev.Pairwise (fun a b => key a ≤ key b)) :
    (insertBack cmp x rev).Pairwise (fun a b => key a ≤ key b) := by
  induction rev with
  | nil => simp [insertBack]
  | cons y ys ih =>
    have hy := List.pairwise_cons.1 hs
    simp only [insertBack]
    split
    · next h =>
      have hyx : key y < key x := (hcmp y (List.mem_cons_self y ys)).1 h
      refine List.pairwise_cons.2 ⟨?_, ih (fun z hz => hcmp z (List.mem_cons_of_mem y hz)) hy.2⟩
      intro z hz
      rcases List.mem_cons.1 ((insertBack_perm cmp x ys).mem_iff.1 hz) with hzx | hz
      · rw [hzx]; exact le_of_lt hyx
      · exact hy.1 z hz
    · next h =>
      have hxy : key x ≤ key y := by
        have h2 : ¬ key y < key x := fun h3 => h ((hcmp y (List.mem_cons_self y ys)).2 h3)
        exact not_lt.1 h2
      refine List.pairwise_cons.2 ⟨?_, hs⟩
      intro z hz
      rcases List.mem_cons.1 hz with hzy | hz
      · rw [hzy]; exact hxy
      · exact le_trans hxy (hy.1 z hz)

theorem foldl_insertBack_pairwise (cmp : α → α → Int) (key : α → Int) (l : List α) :
    ∀ acc : List α,
      (∀ a ∈ l ++ acc, ∀ b ∈ l ++ acc, (cmp a b < 0 ↔ key b < key a)) →
      acc.Pairwise (fun a b => key a ≤ key b) →
      (l.foldl (fun rev x => insertBack cmp x rev) acc).Pairwise (fun a b => key a ≤ key b) := by
  induction l with
  | nil => intro acc _ hs; exact hs
  | cons x xs ih =>
    intro acc hcmp hs
    simp only [List.foldl_cons]
    have hmem : ∀ a, a ∈ xs ++ insertBack cmp x acc → a ∈ (x :: xs) ++ acc := by
      intro a ha
      rcases List.mem_append.1 ha with h | h
      · exact List.mem_append_left _ (List.mem_cons_of_mem x h)
      · rcases List.mem_cons.1 ((insertBack_perm cmp x acc).mem_iff.1 h) with h | h
        · rw [h]; exact List.mem_append_left _ (List.mem_cons_self x xs)
        · exact List.mem_append_right _ h
    refine ih (insertBack cmp x acc) (fun a ha b hb => hcmp a (hmem a ha) b (hmem b hb)) ?_
    refine insertBack_pairwise cmp key x acc (fun y hy => ?_) hs
    exact hcmp x (List.mem_append_left _ (List.mem_cons_self x xs)) y (List.mem_append_right _ hy)

/-- With a comparison that orders by a key, larger keys first, the sort returns
the elements by non-increasing key. -/
theorem SortFunc_pairwise (cmp : α → α → Int) (key : α → Int) (l : List α)
    (hcmp : ∀ a ∈ l, ∀ b ∈ l, (cmp a b < 0 ↔ key b < key a)) :
    (SortFunc cmp l).Pairwise (fun a b => key b ≤ key a) := by
  unfold SortFunc insertionSortCmpFunc
  rw [List.pairwise_reverse]
  refine foldl_insertBack_pairwise cmp key l [] ?_ List.Pairwise.nil
  simpa using hcmp

end Sorting

/-! ## Lemmas: the limit -/

theorem applyLimit_of_nonneg {α : Type} (s : List α) {limit : Int} (h : 0 ≤ limit) :
    applyLimit s limit = some (s.take limit.toNat) := by
  unfold applyLimit
  split
  · rw [if_neg (not_lt.2 h)]
  · next hlen =>
    have : s.length ≤ limit.toNat := by omega
    rw [List.take_of_length_le this]

theorem applyLimit_of_neg {α : Type} (s : List α) {limit : Int} (h : limit < 0) :
    applyLimit s limit = none := by
  unfold applyLimit
  have : (s.length : Int) > limit := by omega
  rw [if_pos this, if_pos h]

theorem Stats_of_nonneg (p : processor) {limit : Int} (h : 0 ≤ limit) :
    Stats p limit = some
      ((SortFunc linkCmp (p.links.map (fun e => toLinkStats e.2))).take limit.toNat,
       (SortFunc userCmp (p.users.map (fun e => toUserStats e.2))).take limit.toNat,
       none) := by
  simp only [Stats, applyLimit_of_nonneg _ h]

theorem Stats_of_neg (p : processor) {limit : Int} (h : limit < 0) : Stats p limit = none := by
  simp only [Stats, applyLimit_of_neg _ h]

/-! ## Lemmas: the comparisons of `Stats` -/

theorem userCmp_iff (a b : UserStats)
    (ha : 0 ≤ a.PostCount ∧ a.PostCount < 2 ^ 63) (hb : 0 ≤ b.PostCount ∧ b.PostCount < 2 ^ 63) :
    userCmp a b < 0 ↔ b.PostCount < a.PostCount := by
  unfold userCmp
  rw [wrapInt_of_isGoInt (by unfold isGoInt; omega)]
  omega

theorem linkCmp_iff (a b : LinkStats) (h : isGoInt (b.UpVotes - a.UpVotes)) :
    linkCmp a b < 0 ↔ b.UpVotes < a.UpVotes := by
  unfold linkCmp
  rw [wrapInt_of_isGoInt h]
  omega

/-- With a comparison that orders by a key and keys that are pairwise distinct,
the sort returns the elements by strictly decreasing key. -/
theorem SortFunc_pairwise_strict {α : Type} (cmp : α → α → Int) (key : α → Int) (l : List α)
    (hcmp : ∀ a ∈ l, ∀ b ∈ l, (cmp a b < 0 ↔ key b < key a))
    (hnd : (l.map key).Nodup) :
    (SortFunc cmp l).Pairwise (fun a b => key b < key a) := by
  have hle := SortFunc_pairwise cmp key l hcmp
  have hnd2 : ((SortFunc cmp l).map key).Nodup :=
    ((SortFunc_perm cmp l).map key).nodup_iff.2 hnd
  have hne : (SortFunc cmp l).Pairwise (fun a b => key a ≠ key b) :=
    List.pairwise_map.1 hnd2
  exact (hle.and hne).imp (fun h => lt_of_le_of_ne h.1 (Ne.symm h.2))

/-- A list in strictly decreasing key order is determined by its elements. -/
theorem eq_of_perm_of_strict {α : Type} (key : α → Int) (s1 s2 : List α) (hp : s1.Perm s2)
    (h1 : s1.Pairwise (fun a b => key b < key a)) (h2 : s2.Pairwise (fun a b => key b < key a)) :
    s1 = s2 := by
  haveI : IsAntisymm α (fun a b => key b < key a) :=
    ⟨fun a b hab hba => absurd hab (not_lt.2 (le_of_lt hba))⟩
  exact List.eq_of_perm_of_sorted hp h1 h2

/-- With distinct keys the result of the sort does not depend on the order of its input. -/
theorem SortFunc_eq_of_perm {α : Type} (cmp : α → α → Int) (key : α → Int) (l1 l2 : List α)
    (hp : l1.Perm l2)
    (hcmp : ∀ a ∈ l1, ∀ b ∈ l1, (cmp a b < 0 ↔ key b < key a))
    (hnd : (l1.map key).Nodup) :
    SortFunc cmp l1 = SortFunc cmp l2 := by
  have hcmp2 : ∀ a ∈ l2, ∀ b ∈ l2, (cmp a b < 0 ↔ key b < key a) :=
    fun a ha b hb => hcmp a (hp.mem_iff.2 ha) b (hp.mem_iff.2 hb)
  have hnd2 : (l2.map key).Nodup := (hp.map key).nodup_iff.1 hnd
  refine eq_of_perm_of_strict key _ _ ?_ (SortFunc_pairwise_strict cmp key l1 hcmp hnd)
    (SortFunc_pairwise_strict cmp key l2 hcmp2 hnd2)
  exact (SortFunc_perm cmp l1).trans (hp.trans (SortFunc_perm cmp l2).symm)

theorem linkCmp_iff_of_scoresFit (ls : List (String × Link)) (h : scoresFit ls) :
    ∀ a ∈ ls.map (fun e => toLinkStats e.2), ∀ b ∈ ls.map (fun e => toLinkStats e.2),
      (linkCmp a b < 0 ↔ b.UpVotes < a.UpVotes) := by
  intro a ha b hb
  obtain ⟨ea, hea, rfl⟩ := List.mem_map.1 ha
  obtain ⟨eb, heb, rfl⟩ := List.mem_map.1 hb
  exact linkCmp_iff _ _ (h ea hea eb heb)

theorem userCmp_iff_of_sizesFit (us : List (String × user)) (h : sizesFit us) :
    ∀ a ∈ us.map (fun e => toUserStats e.2), ∀ b ∈ us.map (fun e => toUserStats e.2),
      (userCmp a b < 0 ↔ b.PostCount < a.PostCount) := by
  have hrange : ∀ a ∈ us.map (fun e => toUserStats e.2),
      0 ≤ a.PostCount ∧ a.PostCount < 2 ^ 63 := by
    intro a ha
    obtain ⟨e, he, rfl⟩ := List.mem_map.1 ha
    exact ⟨Int.ofNat_nonneg _, h e he⟩
  exact fun a ha b hb => userCmp_iff a b (hrange a ha) (hrange b hb)

/-- Two stores with the same entries, visited in different orders, give the same
`Stats` when the scores are pairwise distinct (their differences fitting an
`int`) and the post counts are pairwise distinct. -/
theorem Stats_eq_of_perm (p1 p2 : processor) (limit : Int)
    (hl : p1.links.Perm p2.links) (hu : p1.users.Perm p2.users)
    (hfit : scoresFit p1.links) (hsize : sizesFit p1.users)
    (hscores : (p1.links.map (fun e => e.2.Data.Ups)).Nodup)
    (hcounts : (p1.users.map (fun e => e.2.links.length)).Nodup) :
    Stats p1 limit = Stats p2 limit := by
  have h1 : SortFunc linkCmp (p1.links.map (fun e => toLinkStats e.2))
      = SortFunc linkCmp (p2.links.map (fun e => toLinkStats e.2)) := by
    refine SortFunc_eq_of_perm linkCmp (fun a => a.UpVotes) _ _ (hl.map _)
      (linkCmp_iff_of_scoresFit p1.links hfit) ?_
    simpa [List.map_map, Function.comp, toLinkStats] using hscores
  have h2 : SortFunc userCmp (p1.users.map (fun e => toUserStats e.2))
      = SortFunc userCmp (p2.users.map (fun e => toUserStats e.2)) := by
    refine SortFunc_eq_of_perm userCmp (fun a => a.PostCount) _ _ (hu.map _)
      (userCmp_iff_of_sizesFit p1.users hsize) ?_
    have h3 : (List.map (fun a => a.PostCount) (p1.users.map (fun e => toUserStats e.2)))
        = (p1.users.map (fun e => e.2.links.length)).map (fun n : Nat => (n : Int)) := by
      simp [List.map_map, Function.comp, toUserStats]
    rw [h3]
    exact hcounts.map Nat.cast_injective
  simp only [Stats, h1, h2]

/-- C1: on a store whose two items have the distinct scores -2 and 2^63-1, both
Go `int` values, `Stats` with limit 5 returns the item scored -2 before the item
scored 2^63-1, whatever the order in which the map is visited: the sequence is
not in descending order of UpVotes. -/
theorem C1_stats_items_overflow_ascending :
    isGoInt (-2) ∧ isGoInt 9223372036854775807 ∧
    (Stats { links := [("a", mkLink "a" (-2)), ("b", mkLink "b" 9223372036854775807)],
             users := [] } 5).map (fun r => r.1.map (fun s => s.UpVotes))
      = some [-2, 9223372036854775807] ∧
    (Stats { links := [("b", mkLink "b" 9223372036854775807), ("a", mkLink "a" (-2))],
             users := [] } 5).map (fun r => r.1.map (fun s => s.UpVotes))
      = some [-2, 9223372036854775807] := by
  decide

/-- C2: for every content of the users map (a Go map holds fewer than 2^63
entries) and every limit >= 0, `Stats` returns normally, its contributor
sequence is ordered by non-increasing PostCount, and it is the first `limit`
entries of a rearrangement of the stored contributors, each with the size of its
link set as PostCount.  For the fixtures l1(1), l2(2), l3(3), u1={l1},
u2={l2,l3}, in whatever order the maps are visited, `Stats(5)` returns items
[l3,l2,l1] and contributors [u2 (2), u1 (1)], and `Stats(1)` returns [l3] and [u2]. -/
theorem C2_stats_contributors_ordered (p : processor) (limit : Int) (hlimit : 0 ≤ limit)
    (hlen : sizesFit p.users) :
    (∃ items users, Stats p limit = some (items, users, none) ∧
      users.Pairwise (fun a b => b.PostCount ≤ a.PostCount) ∧
      ∃ full : List UserStats, full.Perm (p.users.map (fun e => toUserStats e.2)) ∧
        users = full.take limit.toNat) ∧
    (∀ ls us, ls.Perm [("l1", l1), ("l2", l2), ("l3", l3)] → us.Perm [("u1", u1), ("u2", u2)] →
      Stats { links := ls, users := us } 5
        = some ([toLinkStats l3, toLinkStats l2, toLinkStats l1],
                [{ Name := "u2", PostCount := 2 }, { Name := "u1", PostCount := 1 }], none) ∧
      Stats { links := ls, users := us } 1
        = some ([toLinkStats l3], [{ Name := "u2", PostCount := 2 }], none)) := by
  constructor
  · refine ⟨_, _, Stats_of_nonneg p hlimit, ?_, _, SortFunc_perm userCmp _, rfl⟩
    exact (SortFunc_pairwise userCmp (fun a => a.PostCount) _
      (userCmp_iff_of_sizesFit p.users hlen)).sublist (List.take_sublist _ _)
  · intro ls us hls hus
    have hfix : ∀ limit : Int,
        Stats { links := [("l1", l1), ("l2", l2), ("l3", l3)], users := [("u1", u1), ("u2", u2)] }
          limit = Stats { links := ls, users := us } limit :=
      fun limit => Stats_eq_of_perm _ _ limit hls.symm hus.symm
        (by decide) (by decide) (by decide) (by decide)
    rw [← hfix 5, ← hfix 1]
    decide

/-- The fixture store of the processor tests, with limit 5, satisfies the
hypotheses of C2. -/
theorem C2_stats_contributors_ordered_witness :
    (∃ items users,
      Stats { links := [("l1", l1), ("l2", l2), ("l3", l3)], users := [("u1", u1), ("u2", u2)] } 5
        = some (items, users, none) ∧
      users.Pairwise (fun a b => b.PostCount ≤ a.PostCount) ∧
      ∃ full : List UserStats,
        full.Perm ([("u1", u1), ("u2", u2)].map (fun e => toUserStats e.2)) ∧
        users = full.take (5 : Int).toNat) ∧
    Stats { links := [("l3", l3), ("l1", l1), ("l2", l2)], users := [("u2", u2), ("u1", u1)] } 1
      = some ([toLinkStats l3], [{ Name := "u2", PostCount := 2 }], none) :=
  have h := C2_stats_contributors_ordered
    { links := [("l1", l1), ("l2", l2), ("l3", l3)], users := [("u1", u1), ("u2", u2)] } 5
    (by decide) (by decide)
  ⟨h.1, (h.2 [("l3", l3), ("l1", l1), ("l2", l2)] [("u2", u2), ("u1", u1)]
    (by decide) (by decide)).2⟩

/-- C3: for every store content and every limit >= 0, `Stats` returns normally,
its item sequence has exactly min(limit, number of stored items) entries and its
contributor sequence exactly min(limit, number of stored contributors) entries,
and every returned entry is the record of a stored item or contributor (no
padding). -/
theorem C3_stats_truncation (p : processor) (limit : Int) (hlimit : 0 ≤ limit) :
    ∃ items users, Stats p limit = some (items, users, none) ∧
      (items.length : Int) = min limit (p.links.length : Int) ∧
      (users.length : Int) = min limit (p.users.length : Int) ∧
      (∀ s ∈ items, ∃ e ∈ p.links, s = toLinkStats e.2) ∧
      (∀ s ∈ users, ∃ e ∈ p.users, s = toUserStats e.2) := by
  refine ⟨_, _, Stats_of_nonneg p hlimit, ?_, ?_, ?_, ?_⟩
  · rw [List.length_take, SortFunc_length, List.length_map]
    omega
  · rw [List.length_take, SortFunc_length, List.length_map]
    omega
  · intro s hs
    have h := (SortFunc_perm linkCmp _).mem_iff.1 (List.mem_of_mem_take hs)
    obtain ⟨e, he, rfl⟩ := List.mem_map.1 h
    exact ⟨e, he, rfl⟩
  · intro s hs
    have h := (SortFunc_perm userCmp _).mem_iff.1 (List.mem_of_mem_take hs)
    obtain ⟨e, he, rfl⟩ := List.mem_map.1 h
    exact ⟨e, he, rfl⟩

/-- The fixture store with limit 1 satisfies the hypothesis of C3: three items
and two contributors are cut to one entry each. -/
theorem C3_stats_truncation_witness :
    (0 : Int) ≤ 1 ∧
    ∃ items users,
      Stats { links := [("l1", l1), ("l2", l2), ("l3", l3)], users := [("u1", u1), ("u2", u2)] } 1
        = some (items, users, none) ∧
      (items.length : Int) = min 1 (([("l1", l1), ("l2", l2), ("l3", l3)].length : Nat) : Int) ∧
      (users.length : Int) = min 1 (([("u1", u1), ("u2", u2)].length : Nat) : Int) ∧
      (∀ s ∈ items, ∃ e ∈ [("l1", l1), ("l2", l2), ("l3", l3)], s = toLinkStats e.2) ∧
      (∀ s ∈ users, ∃ e ∈ [("u1", u1), ("u2", u2)], s = toUserStats e.2) :=
  ⟨by decide, C3_stats_truncation
    { links := [("l1", l1), ("l2", l2), ("l3", l3)], users := [("u1", u1), ("u2", u2)] } 1
    (by decide)⟩

/-- C4: on the empty store `Stats` returns two empty sequences and a nil error
for the limits 0 and 5, and panics for the limit -1: `len(links) > limit` holds
and `links[0:-1]` is out of range. -/
theorem C4_stats_empty_store_negative_limit :
    Stats NewProcessor 0 = some ([], [], none) ∧
    Stats NewProcessor 5 = some ([], [], none) ∧
    Stats NewProcessor (-1) = none := by
  decide

/-- C5: on a store holding the item l1 and the contributor u1, `Stats` returns
two empty sequences and a nil error for the limit 0, and panics for the limits
-1 and -5. -/
theorem C5_stats_nonempty_store_negative_limit :
    Stats { links := [("l1", l1)], users := [("u1", u1)] } 0 = some ([], [], none) ∧
    Stats { links := [("l1", l1)], users := [("u1", u1)] } (-1) = none ∧
    Stats { links := [("l1", l1)], users := [("u1", u1)] } (-5) = none := by
  decide

/-! ## Lemmas: Go maps -/

section Maps

variable {β : Type}

theorem mapGet_mapSet (m : List (String × β)) (k : String) (v : β) (k' : String) :
    mapGet (mapSet m k v) k' = if k = k' then some v else mapGet m k' := by
  induction m with
  | nil => simp [mapSet, mapGet]
  | cons e rest ih =>
    obtain ⟨ke, ve⟩ := e
    simp only [mapSet]
    by_cases h : ke = k
    · subst h
      simp only [if_true, mapGet]
      by_cases h2 : ke = k'
      · simp [h2]
      · simp [h2]
    · simp only [if_neg h, mapGet, ih]
      by_cases h2 : ke = k'
      · subst h2
        simp [Ne.symm h]
      · simp [h2]

theorem mem_keys_mapSet (m : List (String × β)) (k : String) (v : β) (k' : String) :
    k' ∈ (mapSet m k v).map Prod.fst ↔ k' = k ∨ k' ∈ m.map Prod.fst := by
  induction m with
  | nil => simp [mapSet]
  | cons e rest ih =>
    obtain ⟨ke, ve⟩ := e
    simp only [mapSet]
    by_cases h : ke = k
    · subst h
      simp
    · simp only [if_neg h, List.map_cons, List.mem_cons, ih]
      tauto

theorem nodup_keys_mapSet (m : List (String × β)) (k : String) (v : β)
    (h : (m.map Prod.fst).Nodup) : ((mapSet m k v).map Prod.fst).Nodup := by
  induction m with
  | nil => simp [mapSet]
  | cons e rest ih =>
    obtain ⟨ke, ve⟩ := e
    simp only [List.map_cons, List.nodup_cons] at h
    simp only [mapSet]
    by_cases hk : ke = k
    · subst hk
      simpa using h
    · simp only [if_neg hk, List.map_cons, List.nodup_cons]
      refine ⟨?_, ih h.2⟩
      intro hmem
      rcases (mem_keys_mapSet rest k v ke).1 hmem with h1 | h1
      · exact hk h1
      · exact h.1 h1

theorem mapGet_eq_some_iff (m : List (String × β)) (h : (m.map Prod.fst).Nodup)
    (k : String) (v : β) : mapGet m k = some v ↔ (k, v) ∈ m := by
  induction m with
  | nil => simp [mapGet]
  | cons e rest ih =>
    obtain ⟨ke, ve⟩ := e
    simp only [List.map_cons, List.nodup_cons] at h
    simp only [mapGet, List.mem_cons, Prod.mk.injEq]
    by_cases hk : ke = k
    · subst hk
      simp only [if_true, Option.some.injEq, true_and]
      constructor
      · intro h1; exact Or.inl h1.symm
      · rintro (h1 | h1)
        · exact h1.symm
        · exact absurd (List.mem_map_of_mem Prod.fst h1) h.1
    · rw [if_neg hk, ih h.2]
      constructor
      · intro h1; exact Or.inr h1
      · rintro (h1 | h1)
        · exact absurd h1.1.symm hk
        · exact h1

theorem mapGet_isSome_iff (m : List (String × β)) (k : String) :
    (mapGet m k).isSome ↔ k ∈ m.map Prod.fst := by
  induction m with
  | nil => simp [mapGet]
  | cons e rest ih =>
    obtain ⟨ke, ve⟩ := e
    simp only [mapGet, List.map_cons, List.mem_cons]
    by_cases hk : ke = k
    · subst hk; simp
    · rw [if_neg hk, ih]
      constructor
      · intro h; exact Or.inr h
      · rintro (h | h)
        · exact absurd h.symm hk
        · exact h

/-- A map holds as many entries as there are distinct keys in any list with the
same members as its key set. -/
theorem length_eq_dedup_length (m : List (String × β)) (h : (m.map Prod.fst).Nodup)
    (names : List String) (hmem : ∀ k, k ∈ m.map Prod.fst ↔ k ∈ names) :
    m.length = names.dedup.length := by
  have hp : (m.map Prod.fst).Perm names.dedup :=
    (List.perm_ext_iff_of_nodup h (List.nodup_dedup names)).2
      (fun k => by rw [hmem k, List.mem_dedup])
  simpa using hp.length_eq

end Maps

/-! ## Lemmas: the item store -/

theorem foldl_processLink_snoc (xs : List Link) (x : Link) (p : processor) :
    (xs ++ [x]).foldl processLink p = processLink (xs.foldl processLink p) x := by
  rw [List.foldl_append]; rfl

theorem processLink_fold_nodup (seq : List Link) :
    ((seq.foldl processLink NewProcessor).links.map Prod.fst).Nodup := by
  induction seq using List.reverseRecOn with
  | nil => simp [NewProcessor]
  | append_singleton xs x ih =>
    rw [foldl_processLink_snoc]
    exact nodup_keys_mapSet _ _ _ ih

theorem processLink_fold_keys (seq : List Link) (k : String) :
    k ∈ (seq.foldl processLink NewProcessor).links.map Prod.fst
      ↔ k ∈ seq.map (fun l => l.Data.Name) := by
  induction seq using List.reverseRecOn with
  | nil => simp [NewProcessor]
  | append_singleton xs x ih =>
    rw [foldl_processLink_snoc]
    simp only [processLink, mem_keys_mapSet, ih, List.map_append, List.mem_append, List.map_cons,
      List.map_nil, List.mem_singleton]
    tauto

theorem processLink_fold_get (seq : List Link) (name : String) :
    mapGet (seq.foldl processLink NewProcessor).links name
      = seq.reverse.find? (fun l => decide (l.Data.Name = name)) := by
  induction seq using List.reverseRecOn with
  | nil => simp [NewProcessor, mapGet]
  | append_singleton xs x ih =>
    rw [foldl_processLink_snoc]
    simp only [processLink, mapGet_mapSet, ih, List.reverse_append, List.reverse_cons,
      List.reverse_nil, List.nil_append, List.singleton_append, List.find?_cons]
    by_cases h : x.Data.Name = name
    · simp [h]
    · simp [h]

/-- C6: starting from the empty links map, after `processLink` has been applied
to the links of any finite sequence in turn, the map has no two entries with the
same key, its entries are exactly the pairs of a name and the last link of the
sequence with that Data.Name, and it holds as many entries as the sequence has
distinct names.  Applying `processLink` twice with l1 = {Name=l1, Ups=1} leaves
the single entry l1, and `Stats` then reports l1 once. -/
theorem C6_processLink_upsert (seq : List Link) :
    ((seq.foldl processLink NewProcessor).links.map Prod.fst).Nodup ∧
    (∀ name link, (name, link) ∈ (seq.foldl processLink NewProcessor).links
      ↔ seq.reverse.find? (fun l => decide (l.Data.Name = name)) = some link) ∧
    (seq.foldl processLink NewProcessor).links.length
      = (seq.map (fun l => l.Data.Name)).dedup.length ∧
    ([l1, l1].foldl processLink NewProcessor).links = [("l1", l1)] ∧
    Stats ([l1, l1].foldl processLink NewProcessor) 5 = some ([toLinkStats l1], [], none) := by
  refine ⟨processLink_fold_nodup seq, ?_, ?_, by decide, by decide⟩
  · intro name link
    rw [← mapGet_eq_some_iff _ (processLink_fold_nodup seq), processLink_fold_get]
  · exact length_eq_dedup_length _ (processLink_fold_nodup seq) _ (processLink_fold_keys seq)

/-! ## Lemmas: the contributor store -/

theorem foldl_processUser_snoc (xs : List Link) (x : Link) (p : processor) :
    (xs ++ [x]).foldl processUser p = processUser (xs.foldl processUser p) x := by
  rw [List.foldl_append]; rfl

theorem processUser_fold_nodup (seq : List Link) :
    ((seq.foldl processUser NewProcessor).users.map Prod.fst).Nodup := by
  induction seq using List.reverseRecOn with
  | nil => simp [NewProcessor]
  | append_singleton xs x ih =>
    rw [foldl_processUser_snoc]
    exact nodup_keys_mapSet _ _ _ ih

theorem processUser_fold_keys (seq : List Link) (k : String) :
    k ∈ (seq.foldl processUser NewProcessor).users.map Prod.fst
      ↔ k ∈ seq.map (fun l => l.Data.AuthorFullname) := by
  induction seq using List.reverseRecOn with
  | nil => simp [NewProcessor]
  | append_singleton xs x ih =>
    rw [foldl_processUser_snoc]
    simp only [processUser, mem_keys_mapSet, ih, List.map_append, List.mem_append, List.map_cons,
      List.map_nil, List.mem_singleton]
    tauto

/-- The link set of every stored contributor has one entry per distinct item id
of that author. -/
theorem processUser_fold_links (seq : List Link) :
    ∀ (k : String) (u : user), mapGet (seq.foldl processUser NewProcessor).users k = some u →
      (u.links.map Prod.fst).Nodup ∧
      ∀ n, n ∈ u.links.map Prod.fst
        ↔ n ∈ (seq.filter (fun l => decide (l.Data.AuthorFullname = k))).map
            (fun l => l.Data.Name) := by
  induction seq using List.reverseRecOn with
  | nil => intro k u h; simp [NewProcessor, mapGet] at h
  | append_singleton xs x ih =>
    intro k u h
    rw [foldl_processUser_snoc] at h
    simp only [processUser, mapGet_mapSet] at h
    by_cases hk : x.Data.AuthorFullname = k
    · rw [if_pos hk] at h
      have hu := (Option.some.inj h).symm
      subst hk
      -- the contributor read from the map, or the fresh one
      have h0 : ∀ u0 : user,
          (match mapGet (xs.foldl processUser NewProcessor).users x.Data.AuthorFullname with
            | some u => u
            | none => { name := x.Data.Author, links := [] }) = u0 →
          (u0.links.map Prod.fst).Nodup ∧
          ∀ n, n ∈ u0.links.map Prod.fst
            ↔ n ∈ (xs.filter (fun l => decide (l.Data.AuthorFullname
                  = x.Data.AuthorFullname))).map (fun l => l.Data.Name) := by
        intro u0 hu0
        cases hget : mapGet (xs.foldl processUser NewProcessor).users x.Data.AuthorFullname with
        | some u1 =>
          rw [hget] at hu0
          subst hu0
          exact ih _ _ hget
        | none =>
          rw [hget] at hu0
          subst hu0
          have hnot : x.Data.AuthorFullname ∉ xs.map (fun l => l.Data.AuthorFullname) := by
            intro hmem
            have h1 := (mapGet_isSome_iff _ _).2 ((processUser_fold_keys xs _).2 hmem)
            rw [hget] at h1
            exact absurd h1 (by simp)
          refine ⟨by simp, fun n => ?_⟩
          constructor
          · intro hn; simp at hn
          · intro hn
            obtain ⟨l, hl, _⟩ := List.mem_map.1 hn
            have hl2 := List.mem_filter.1 hl
            exact absurd (List.mem_map.2 ⟨l, hl2.1, of_decide_eq_true hl2.2⟩) hnot
      have h1 := h0 _ rfl
      rw [hu]
      refine ⟨nodup_keys_mapSet _ _ _ h1.1, fun n => ?_⟩
      simp only [mem_keys_mapSet, h1.2 n, List.filter_append, List.map_append, List.mem_append]
      simp only [List.filter_cons, decide_True, if_true, List.filter_nil, List.map_cons,
        List.map_nil, List.mem_singleton]
      tauto
    · rw [if_neg hk] at h
      have h1 := ih k u h
      refine ⟨h1.1, fun n => ?_⟩
      rw [h1.2 n, List.filter_append]
      simp [hk]

theorem processUser_fold_count (seq : List Link) (k : String) (u : user)
    (h : (k, u) ∈ (seq.foldl processUser NewProcessor).users) :
    u.links.length = distinctItemCount seq k := by
  have hget := (mapGet_eq_some_iff _ (processUser_fold_nodup seq) k u).2 h
  have h1 := processUser_fold_links seq k u hget
  exact length_eq_dedup_length u.links h1.1 _ h1.2

/-- C7: starting from the empty users map, after `processUser` has been applied
to the links of any finite sequence in turn, in whatever order the users map is
then visited and for every limit >= 0: every author of the sequence has a
contributor stored under its AuthorFullname, the PostCount `Stats` computes for
each stored contributor is the number of distinct Data.Name values among that
author's links in the sequence, and `Stats` returns the first `limit` of the
contributors' records with these counts, sorted. -/
theorem C7_post_count_distinct (seq : List Link) (items : List (String × Link))
    (order : List (String × user)) (limit : Int) (hlimit : 0 ≤ limit)
    (horder : order.Perm (seq.foldl processUser NewProcessor).users) :
    (∀ l ∈ seq, ∃ u, (l.Data.AuthorFullname, u) ∈ order ∧
      (toUserStats u).PostCount = (distinctItemCount seq l.Data.AuthorFullname : Int)) ∧
    (∀ e ∈ order, (toUserStats e.2).PostCount = (distinctItemCount seq e.1 : Int)) ∧
    ∃ links, Stats { links := items, users := order } limit
      = some (links,
          (SortFunc userCmp (order.map (fun e =>
            { Name := e.2.name, PostCount := (distinctItemCount seq e.1 : Int) }))).take
              limit.toNat,
          none) := by
  have hcount : ∀ e ∈ order, e.2.links.length = distinctItemCount seq e.1 :=
    fun e he => processUser_fold_count seq e.1 e.2 (horder.mem_iff.1 he)
  refine ⟨?_, ?_, ?_⟩
  · intro l hl
    have hk : l.Data.AuthorFullname ∈ order.map Prod.fst :=
      (horder.map Prod.fst).mem_iff.2
        ((processUser_fold_keys seq _).2 (List.mem_map_of_mem (fun l => l.Data.AuthorFullname) hl))
    obtain ⟨e, he, hek⟩ := List.mem_map.1 hk
    refine ⟨e.2, ?_, ?_⟩
    · rw [← hek]; exact he
    · rw [← hek]
      simp only [toUserStats]
      exact congrArg Nat.cast (hcount e he)
  · intro e he
    simp only [toUserStats]
    exact congrArg Nat.cast (hcount e he)
  · refine ⟨(SortFunc linkCmp (items.map (fun e => toLinkStats e.2))).take limit.toNat, ?_⟩
    rw [Stats_of_nonneg _ hlimit]
    have hmap : order.map (fun e => toUserStats e.2)
        = order.map (fun e =>
            ({ Name := e.2.name, PostCount := (distinctItemCount seq e.1 : Int) } : UserStats)) :=
      List.map_congr_left (fun e he => by simp only [toUserStats, hcount e he])
    simp only [hmap]

/-- The sequence l1, l1, l2 by one author and l3 by another satisfies the
hypotheses of C7: four `processUser` calls give the post counts 2 and 1. -/
theorem C7_post_count_distinct_witness :
    (0 : Int) ≤ 5 ∧
    [("t2_b", ({ name := "bob", links := [("l3", byAuthor l3 "t2_b" "bob")] } : user)),
     ("t2_a", ({ name := "alice", links := [("l1", byAuthor l1 "t2_a" "alice"),
        ("l2", byAuthor l2 "t2_a" "alice")] } : user))].Perm
      ([byAuthor l1 "t2_a" "alice", byAuthor l1 "t2_a" "alice", byAuthor l2 "t2_a" "alice",
        byAuthor l3 "t2_b" "bob"].foldl processUser NewProcessor).users ∧
    distinctItemCount [byAuthor l1 "t2_a" "alice", byAuthor l1 "t2_a" "alice",
        byAuthor l2 "t2_a" "alice", byAuthor l3 "t2_b" "bob"] "t2_a" = 2 ∧
    ∀ e ∈ [("t2_b", ({ name := "bob", links := [("l3", byAuthor l3 "t2_b" "bob")] } : user)),
           ("t2_a", ({ name := "alice", links := [("l1", byAuthor l1 "t2_a" "alice"),
              ("l2", byAuthor l2 "t2_a" "alice")] } : user))],
      (toUserStats e.2).PostCount
        = (distinctItemCount [byAuthor l1 "t2_a" "alice", byAuthor l1 "t2_a" "alice",
            byAuthor l2 "t2_a" "alice", byAuthor l3 "t2_b" "bob"] e.1 : Int) :=
  ⟨by decide, by decide, by decide,
   (C7_post_count_distinct
      [byAuthor l1 "t2_a" "alice", byAuthor l1 "t2_a" "alice", byAuthor l2 "t2_a" "alice",
        byAuthor l3 "t2_b" "bob"] []
      [("t2_b", { name := "bob", links := [("l3", byAuthor l3 "t2_b" "bob")] }),
       ("t2_a", { name := "alice", links := [("l1", byAuthor l1 "t2_a" "alice"),
          ("l2", byAuthor l2 "t2_a" "alice")] })]
      5 (by decide) (by decide)).2.1⟩

/-! ## Lemmas: the rate limit -/

/-- No path of `setRateLimit` assigns `latestLimit`. -/
theorem setRateLimit_latestLimit (c : client) (header : RateHeader) :
    (setRateLimit c header).latestLimit = c.latestLimit := by
  unfold setRateLimit
  split
  · rfl
  · split
    · rfl
    · split
      · rfl
      · split <;> rfl

theorem setRateLimit_limit (c : client) (date reset : Int) (remaining : Float64)
    (hdate : ¬ date < c.latestLimit) :
    (setRateLimit c ⟨some date, some reset, some remaining⟩).limiter.limit
      = mathMin maxRate ((limitPercentage.mul remaining).div (float64 reset)) := by
  simp only [setRateLimit, if_neg hdate, Limiter.SetLimit]

theorem mathMin_maxRate_le (x : Float64) (h : mathMin maxRate x ≠ .nan) :
    (mathMin maxRate x).le maxRate = true := by
  cases x with
  | nan => simp [mathMin, maxRate] at h
  | negInf => simp [mathMin, maxRate, Float64.le]
  | num a => simp [mathMin, maxRate, Float64.le]
  | posInf => simp [mathMin, maxRate, Float64.le]

theorem rate_nonneg (reset : Int) (remaining : Float64) (hreset : 0 < reset)
    (hrem : (Float64.num 0).le remaining = true) :
    (Float64.num 0).le
      (mathMin maxRate ((limitPercentage.mul remaining).div (float64 reset))) = true := by
  have hr : (0 : ℚ) < (reset : ℚ) := by exact_mod_cast hreset
  cases remaining with
  | nan => simp [Float64.le] at hrem
  | negInf => simp [Float64.le] at hrem
  | num q =>
    have hq : (0 : ℚ) ≤ q := by simpa [Float64.le] using hrem
    have hx : (0 : ℚ) ≤ 9 / 10 * q / (reset : ℚ) :=
      div_nonneg (mul_nonneg (by norm_num) hq) (le_of_lt hr)
    simp [limitPercentage, Float64.mul, float64, Float64.div, ne_of_gt hr, mathMin, maxRate,
      Float64.le, hx]
  | posInf =>
    simp [limitPercentage, Float64.mul, float64, Float64.div, le_of_lt hr, mathMin, maxRate,
      Float64.le]

/-- C8: on a client built at time 0, the feedback (t=10, remaining=50, reset=60)
installs the rate 0.9*50/60 = 3/4 and leaves `latestLimit` at 0; the later call
with the older feedback (t=5, remaining=90, reset=10) is then not discarded: it
installs min(2, 0.9*90/10) = 2. -/
theorem C8_stale_feedback_installed :
    (NewClient "token" 0).map (fun c => (setRateLimit c (feedback 10 50 60)).limiter.limit)
      = some (.num (3 / 4)) ∧
    (NewClient "token" 0).map (fun c => (setRateLimit c (feedback 10 50 60)).latestLimit)
      = some 0 ∧
    (NewClient "token" 0).map (fun c =>
        (setRateLimit (setRateLimit c (feedback 10 50 60)) (feedback 5 90 10)).limiter.limit)
      = some (.num 2) := by
  refine ⟨?_, ?_, ?_⟩
  · simp [NewClient, setRateLimit, feedback, Limiter.SetLimit, mathMin, maxRate, limitPercentage,
      Float64.mul, Float64.div, float64]
    norm_num
  · simp [NewClient, setRateLimit, feedback, Limiter.SetLimit]
  · simp [NewClient, setRateLimit, feedback, Limiter.SetLimit, mathMin, maxRate, limitPercentage,
      Float64.mul, Float64.div, float64]
    norm_num

/-- C9, as stated, fails: on a client built at time 0 the header with Date 10,
X-RateLimit-Reset -1 and X-RateLimit-Remaining 1 reaches `SetLimit` and installs
the rate -9/10, which is negative. -/
theorem C9_rate_negative_counterexample :
    (NewClient "token" 0).map (fun c => (setRateLimit c (feedback 10 1 (-1))).limiter.limit)
      = some (.num (-9 / 10)) ∧
    (Float64.num 0).le (.num (-9 / 10)) = false := by
  refine ⟨?_, ?_⟩
  · simp [NewClient, setRateLimit, feedback, Limiter.SetLimit, mathMin, maxRate, limitPercentage,
      Float64.mul, Float64.div, float64]
    norm_num
  · simp [Float64.le]
    norm_num

/-- C9, amended: for every header on which `setRateLimit` reaches `SetLimit`, the
rate it installs equals min(maxRate, 0.9 * remaining / reset); that rate is at
most maxRate unless it is NaN; and it satisfies 0 <= rate <= maxRate whenever
reset is positive and remaining is at least 0. -/
theorem C9_rate_clamped (c : client) (date reset : Int) (remaining : Float64)
    (hdate : ¬ date < c.latestLimit) :
    (setRateLimit c ⟨some date, some reset, some remaining⟩).limiter.limit
      = mathMin maxRate ((limitPercentage.mul remaining).div (float64 reset)) ∧
    ((setRateLimit c ⟨some date, some reset, some remaining⟩).limiter.limit ≠ .nan →
      Float64.le (setRateLimit c ⟨some date, some reset, some remaining⟩).limiter.limit maxRate = true) ∧
    (0 < reset → (Float64.num 0).le remaining = true →
      (Float64.num 0).le (setRateLimit c ⟨some date, some reset, some remaining⟩).limiter.limit = true ∧
      Float64.le (setRateLimit c ⟨some date, some reset, some remaining⟩).limiter.limit maxRate = true) := by
  rw [setRateLimit_limit c date reset remaining hdate]
  refine ⟨rfl, mathMin_maxRate_le _, fun hreset hrem => ?_⟩
  have h0 := rate_nonneg reset remaining hreset hrem
  refine ⟨h0, mathMin_maxRate_le _ (fun hnan => ?_)⟩
  rw [hnan] at h0
  simp [Float64.le] at h0

/-- The feedback (t=10, remaining=50, reset=60) on a client whose `latestLimit`
is 0 satisfies the hypotheses of C9: the rate 3/4 lies between 0 and 2. -/
theorem C9_rate_clamped_witness :
    ¬ (10 : Int) < 0 ∧ (0 : Int) < 60 ∧ (Float64.num 0).le (.num 50) = true ∧
    (Float64.num 0).le (setRateLimit
        { token := "token", latestLimit := 0, limiter := { limit := .num 1, burst := 1 } }
        ⟨some 10, some 60, some (.num 50)⟩).limiter.limit = true ∧
    Float64.le (setRateLimit
        { token := "token", latestLimit := 0, limiter := { limit := .num 1, burst := 1 } }
        ⟨some 10, some 60, some (.num 50)⟩).limiter.limit
      maxRate = true :=
  ⟨by decide, by decide, by simp [Float64.le],
   (C9_rate_clamped
      { token := "token", latestLimit := 0, limiter := { limit := .num 1, burst := 1 } }
      10 60 (.num 50) (by decide)).2.2 (by decide) (by simp [Float64.le])⟩

/-! ## Lemmas: the order in which the maps are visited -/

theorem sorted_links_eq_of_perm (ls1 ls2 : List (String × Link)) (hl : ls1.Perm ls2)
    (hfit : scoresFit ls1) (hscores : (ls1.map (fun e => e.2.Data.Ups)).Nodup) :
    SortFunc linkCmp (ls1.map (fun e => toLinkStats e.2))
      = SortFunc linkCmp (ls2.map (fun e => toLinkStats e.2)) := by
  refine SortFunc_eq_of_perm linkCmp (fun a => a.UpVotes) _ _ (hl.map _)
    (linkCmp_iff_of_scoresFit ls1 hfit) ?_
  simpa [List.map_map, Function.comp, toLinkStats] using hscores

theorem sorted_users_eq_of_perm (us1 us2 : List (String × user)) (hu : us1.Perm us2)
    (hsize : sizesFit us1) (hcounts : (us1.map (fun e => e.2.links.length)).Nodup) :
    SortFunc userCmp (us1.map (fun e => toUserStats e.2))
      = SortFunc userCmp (us2.map (fun e => toUserStats e.2)) := by
  refine SortFunc_eq_of_perm userCmp (fun a => a.PostCount) _ _ (hu.map _)
    (userCmp_iff_of_sizesFit us1 hsize) ?_
  have h3 : (List.map (fun a => a.PostCount) (us1.map (fun e => toUserStats e.2)))
      = (us1.map (fun e => e.2.links.length)).map (fun n : Nat => (n : Int)) := by
    simp [List.map_map, Function.comp, toUserStats]
  rw [h3]
  exact hcounts.map Nat.cast_injective

/-- The item sequence of `Stats` is fixed by the sorted items and the limit. -/
theorem Stats_items_congr (p1 p2 : processor) (limit : Int)
    (h : SortFunc linkCmp (p1.links.map (fun e => toLinkStats e.2))
      = SortFunc linkCmp (p2.links.map (fun e => toLinkStats e.2))) :
    (Stats p1 limit).map (fun r => r.1) = (Stats p2 limit).map (fun r => r.1) := by
  rcases lt_or_le limit 0 with hneg | hpos
  · rw [Stats_of_neg p1 hneg, Stats_of_neg p2 hneg]
  · rw [Stats_of_nonneg p1 hpos, Stats_of_nonneg p2 hpos]
    simp only [Option.map_some', h]

/-- The contributor sequence of `Stats` is fixed by the sorted contributors and the limit. -/
theorem Stats_users_congr (p1 p2 : processor) (limit : Int)
    (h : SortFunc userCmp (p1.users.map (fun e => toUserStats e.2))
      = SortFunc userCmp (p2.users.map (fun e => toUserStats e.2))) :
    (Stats p1 limit).map (fun r => r.2.1) = (Stats p2 limit).map (fun r => r.2.1) := by
  rcases lt_or_le limit 0 with hneg | hpos
  · rw [Stats_of_neg p1 hneg, Stats_of_neg p2 hneg]
  · rw [Stats_of_nonneg p1 hpos, Stats_of_nonneg p2 hpos]
    simp only [Option.map_some', h]

/-- C10, as stated, fails, for the items and for the contributors.  The two
items a and b, both scored 1, are returned as [a, b] when the map is visited a
first and as [b, a] when it is visited b first.  The two contributors x and y,
both with one link, are returned as [x, y] or as [y, x] in the same way.  The
two items scored -2^62 and 2^62, whose difference does not fit an `int`, are
returned in the reverse of the order in which the map is visited. -/
theorem C10_tie_order_counterexample :
    ([("a", mkLink "a" 1), ("b", mkLink "b" 1)].Perm [("b", mkLink "b" 1), ("a", mkLink "a" 1)] ∧
    Stats { links := [("a", mkLink "a" 1), ("b", mkLink "b" 1)], users := [] } 5
      = some ([toLinkStats (mkLink "a" 1), toLinkStats (mkLink "b" 1)], [], none) ∧
    Stats { links := [("b", mkLink "b" 1), ("a", mkLink "a" 1)], users := [] } 5
      = some ([toLinkStats (mkLink "b" 1), toLinkStats (mkLink "a" 1)], [], none) ∧
    Stats { links := [("a", mkLink "a" 1), ("b", mkLink "b" 1)], users := [] } 5
      ≠ Stats { links := [("b", mkLink "b" 1), ("a", mkLink "a" 1)], users := [] } 5) ∧
    ([("x", ({ name := "x", links := [("l1", l1)] } : user)),
      ("y", ({ name := "y", links := [("l2", l2)] } : user))].Perm
        [("y", { name := "y", links := [("l2", l2)] }),
         ("x", { name := "x", links := [("l1", l1)] })] ∧
    Stats { links := [], users := [("x", { name := "x", links := [("l1", l1)] }),
                                   ("y", { name := "y", links := [("l2", l2)] })] } 5
      = some ([], [{ Name := "x", PostCount := 1 }, { Name := "y", PostCount := 1 }], none) ∧
    Stats { links := [], users := [("y", { name := "y", links := [("l2", l2)] }),
                                   ("x", { name := "x", links := [("l1", l1)] })] } 5
      = some ([], [{ Name := "y", PostCount := 1 }, { Name := "x", PostCount := 1 }], none)) ∧
    (isGoInt (-4611686018427387904) ∧ isGoInt 4611686018427387904 ∧
    (Stats { links := [("a", mkLink "a" (-4611686018427387904)),
                       ("b", mkLink "b" 4611686018427387904)], users := [] } 5).map
        (fun r => r.1.map (fun s => s.UpVotes))
      = some [4611686018427387904, -4611686018427387904] ∧
    (Stats { links := [("b", mkLink "b" 4611686018427387904),
                       ("a", mkLink "a" (-4611686018427387904))], users := [] } 5).map
        (fun r => r.1.map (fun s => s.UpVotes))
      = some [-4611686018427387904, 4611686018427387904]) := by
  refine ⟨?_, ?_, ?_⟩
  · decide
  · decide
  · decide

/-- C10, amended: for every limit and every two stores, the maps being visited
in any two orders.  The item sequence returned by `Stats` is the same for two
stores that hold the same items, provided the scores are pairwise distinct with
differences that fit an `int`.  The contributor sequence is the same for two
stores that hold the same contributors, provided the post counts are pairwise
distinct (each below 2^63, as in any Go map).  Under both provisions the whole
result is the same. -/
theorem C10_stats_order_independent (p1 p2 : processor) (limit : Int) :
    (p1.links.Perm p2.links → scoresFit p1.links →
      (p1.links.map (fun e => e.2.Data.Ups)).Nodup →
      (Stats p1 limit).map (fun r => r.1) = (Stats p2 limit).map (fun r => r.1)) ∧
    (p1.users.Perm p2.users → sizesFit p1.users →
      (p1.users.map (fun e => e.2.links.length)).Nodup →
      (Stats p1 limit).map (fun r => r.2.1) = (Stats p2 limit).map (fun r => r.2.1)) ∧
    (p1.links.Perm p2.links → scoresFit p1.links →
      (p1.links.map (fun e => e.2.Data.Ups)).Nodup →
      p1.users.Perm p2.users → sizesFit p1.users →
      (p1.users.map (fun e => e.2.links.length)).Nodup →
      Stats p1 limit = Stats p2 limit) := by
  refine ⟨?_, ?_, ?_⟩
  · intro hl hfit hscores
    exact Stats_items_congr p1 p2 limit (sorted_links_eq_of_perm _ _ hl hfit hscores)
  · intro hu hsize hcounts
    exact Stats_users_congr p1 p2 limit (sorted_users_eq_of_perm _ _ hu hsize hcounts)
  · intro hl hfit hscores hu hsize hcounts
    exact Stats_eq_of_perm p1 p2 limit hl hu hfit hsize hscores hcounts

/-- The fixture store satisfies the hypotheses of C10.  Its items visited in
another order, next to contributors that tie, give the same item sequence; its
contributors visited in another order, next to items that tie, give the same
contributor sequence. -/
theorem C10_stats_order_independent_witness :
    [("l1", l1), ("l2", l2), ("l3", l3)].Perm [("l3", l3), ("l1", l1), ("l2", l2)] ∧
    scoresFit [("l1", l1), ("l2", l2), ("l3", l3)] ∧
    ([("l1", l1), ("l2", l2), ("l3", l3)].map (fun e => e.2.Data.Ups)).Nodup ∧
    [("u1", u1), ("u2", u2)].Perm [("u2", u2), ("u1", u1)] ∧
    sizesFit [("u1", u1), ("u2", u2)] ∧
    ([("u1", u1), ("u2", u2)].map (fun e => e.2.links.length)).Nodup ∧
    (Stats { links := [("l1", l1), ("l2", l2), ("l3", l3)], users := [("u1", u1)] } 2).map
        (fun r => r.1)
      = (Stats { links := [("l3", l3), ("l1", l1), ("l2", l2)],
                 users := [("x", u1), ("y", u1)] } 2).map (fun r => r.1) ∧
    (Stats { links := [("l1", l1)], users := [("u1", u1), ("u2", u2)] } 2).map
        (fun r => r.2.1)
      = (Stats { links := [("a", mkLink "a" 1), ("b", mkLink "b" 1)],
                 users := [("u2", u2), ("u1", u1)] } 2).map (fun r => r.2.1) :=
  ⟨by decide, by decide, by decide, by decide, by decide, by decide,
   (C10_stats_order_independent
     { links := [("l1", l1), ("l2", l2), ("l3", l3)], users := [("u1", u1)] }
     { links := [("l3", l3), ("l1", l1), ("l2", l2)], users := [("x", u1), ("y", u1)] } 2).1
     (by decide) (by decide) (by decide),
   (C10_stats_order_independent
     { links := [("l1", l1)], users := [("u1", u1), ("u2", u2)] }
     { links := [("a", mkLink "a" 1), ("b", mkLink "b" 1)],
       users := [("u2", u2), ("u1", u1)] } 2).2.1
     (by decide) (by decide) (by decide)⟩

/-! ## Lemmas: the controller -/

theorem mapGet_eq_none_of_not_mem {β : Type} (m : List (String × β)) (k : String)
    (h : k ∉ m.map Prod.fst) : mapGet m k = none := by
  cases hget : mapGet m k with
  | none => rfl
  | some v =>
    have h1 : (mapGet m k).isSome = true := by rw [hget]; rfl
    exact absurd ((mapGet_isSome_iff m k).1 h1) h

/-- C11: for every subreddit name that is not a key of the controller's
processors map and every limit, `controller.Stats` returns the error "subreddit
not configured" with an empty item sequence and an empty contributor sequence;
for every name that is a key, it returns exactly what the processor stored under
that name returns from `Stats(limit)`. -/
theorem C11_controller_stats (c : controller) (subreddit : String) (limit : Int) :
    (subreddit ∉ c.processors.map Prod.fst →
      c.Stats subreddit limit = some ([], [], some "subreddit not configured")) ∧
    (∀ p : Processor, (c.processors.map Prod.fst).Nodup → (subreddit, p) ∈ c.processors →
      c.Stats subreddit limit = p.Stats limit) := by
  constructor
  · intro hkey
    simp only [controller.Stats, mapGet_eq_none_of_not_mem _ _ hkey]
  · intro p hnd hmem
    simp only [controller.Stats, (mapGet_eq_some_iff _ hnd subreddit p).2 hmem]

/-- A controller holding the fixture store under the name "example" satisfies
the hypotheses of C11: the name "unknown-feed" is refused, the name "example" is
answered by the store. -/
theorem C11_controller_stats_witness :
    "unknown-feed" ∉ [("example", processor.asProcessor
        { links := [("l1", l1), ("l2", l2), ("l3", l3)], users := [("u1", u1), ("u2", u2)] })].map
          Prod.fst ∧
    controller.Stats { processors := [("example", processor.asProcessor
        { links := [("l1", l1), ("l2", l2), ("l3", l3)], users := [("u1", u1), ("u2", u2)] })] }
      "unknown-feed" 5 = some ([], [], some "subreddit not configured") ∧
    controller.Stats { processors := [("example", processor.asProcessor
        { links := [("l1", l1), ("l2", l2), ("l3", l3)], users := [("u1", u1), ("u2", u2)] })] }
      "example" 1
      = Stats { links := [("l1", l1), ("l2", l2), ("l3", l3)],
                users := [("u1", u1), ("u2", u2)] } 1 :=
  ⟨by decide,
   (C11_controller_stats { processors := [("example", processor.asProcessor
        { links := [("l1", l1), ("l2", l2), ("l3", l3)], users := [("u1", u1), ("u2", u2)] })] }
      "unknown-feed" 5).1 (by decide),
   (C11_controller_stats { processors := [("example", processor.asProcessor
        { links := [("l1", l1), ("l2", l2), ("l3", l3)], users := [("u1", u1), ("u2", u2)] })] }
      "example" 1).2 _ (by decide) (List.mem_singleton.2 rfl)⟩

/-- C12: whatever the single `GetLinkListing` call of `init` returns, `init`
returns ("", err) when the call fails with err, ("", nil) when the call succeeds
with zero children, and (the Data.Name of the first child, nil) when the call
succeeds with at least one child. -/
theorem C12_init_cursor (c : Client) (config : subredditConfig) :
    (∀ listing err,
      c.GetLinkListing (subredditURL config.Name "new") [("limit", ["1"])] = (listing, some err) →
      init c config = ("", some err)) ∧
    (∀ listing,
      c.GetLinkListing (subredditURL config.Name "new") [("limit", ["1"])] = (listing, none) →
      listing.Data.Children = [] → init c config = ("", none)) ∧
    (∀ listing first rest,
      c.GetLinkListing (subredditURL config.Name "new") [("limit", ["1"])] = (listing, none) →
      listing.Data.Children = first :: rest → init c config = (first.Data.Name, none)) := by
  refine ⟨?_, ?_, ?_⟩
  · intro listing err hcall
    simp only [init, hcall]
  · intro listing hcall hchildren
    simp only [init, hcall, hchildren]
  · intro listing first rest hcall hchildren
    simp only [init, hcall, hchildren]

/-- The three cases of the init test satisfy the hypotheses of C12: a listing
with the child l1, a failed call, and a listing without children. -/
theorem C12_init_cursor_witness :
    init { GetLinkListing := fun _ _ =>
        ({ Kind := "", Data := { After := none, Before := none, Children := [l1] } }, none) }
      { Name := "test", Start := "" } = ("l1", none) ∧
    init { GetLinkListing := fun _ _ =>
        ({ Kind := "", Data := { After := none, Before := none, Children := [] } },
         some "failed to call api") }
      { Name := "test", Start := "" } = ("", some "failed to call api") ∧
    init { GetLinkListing := fun _ _ =>
        ({ Kind := "", Data := { After := none, Before := none, Children := [] } }, none) }
      { Name := "test", Start := "" } = ("", none) :=
  ⟨(C12_init_cursor { GetLinkListing := fun _ _ =>
        ({ Kind := "", Data := { After := none, Before := none, Children := [l1] } }, none) }
      { Name := "test", Start := "" }).2.2 _ l1 [] rfl rfl,
   (C12_init_cursor { GetLinkListing := fun _ _ =>
        ({ Kind := "", Data := { After := none, Before := none, Children := [] } },
         some "failed to call api") }
      { Name := "test", Start := "" }).1 _ "failed to call api" rfl,
   (C12_init_cursor { GetLinkListing := fun _ _ =>
        ({ Kind := "", Data := { After := none, Before := none, Children := [] } }, none) }
      { Name := "test", Start := "" }).2.1 _ rfl rfl⟩

/-- C13: for every response header in which the Date does not parse, or
X-RateLimit-Reset does not parse, or X-RateLimit-Remaining does not parse,
`setRateLimit` returns with the client as it was before the call: the same
limiter rate and the same `latestLimit`. -/
theorem C13_malformed_feedback_keeps_rate (c : client) (header : RateHeader)
    (hbad : header.date = none ∨ header.reset = none ∨ header.remaining = none) :
    setRateLimit c header = c ∧
    (setRateLimit c header).limiter.limit = c.limiter.limit ∧
    (setRateLimit c header).latestLimit = c.latestLimit := by
  have h : setRateLimit c header = c := by
    obtain ⟨date, reset, remaining⟩ := header
    simp only at hbad
    unfold setRateLimit
    cases date with
    | none => rfl
    | some d =>
      simp only
      split
      · rfl
      · cases reset with
        | none => rfl
        | some r =>
          cases remaining with
          | none => rfl
          | some x => simp at hbad
  exact ⟨h, by rw [h], by rw [h]⟩

/-- A header whose X-RateLimit-Remaining does not parse, on a client with the
rate 3/4, satisfies the hypothesis of C13. -/
theorem C13_malformed_feedback_keeps_rate_witness :
    ((⟨some 10, some 60, none⟩ : RateHeader).date = none ∨
      (⟨some 10, some 60, none⟩ : RateHeader).reset = none ∨
      (⟨some 10, some 60, none⟩ : RateHeader).remaining = none) ∧
    (setRateLimit
        { token := "token", latestLimit := 0, limiter := { limit := .num (3 / 4), burst := 1 } }
        ⟨some 10, some 60, none⟩).limiter.limit = .num (3 / 4) ∧
    (setRateLimit
        { token := "token", latestLimit := 0, limiter := { limit := .num (3 / 4), burst := 1 } }
        ⟨some 10, some 60, none⟩).latestLimit = 0 :=
  ⟨Or.inr (Or.inr rfl),
   (C13_malformed_feedback_keeps_rate
      { token := "token", latestLimit := 0, limiter := { limit := .num (3 / 4), burst := 1 } }
      ⟨some 10, some 60, none⟩ (Or.inr (Or.inr rfl))).2⟩

/-! ## Lemmas: strconv.Atoi -/

theorem decimalValue_eq (ds : List Char) (hd : ∀ ch ∈ ds, '0' ≤ ch ∧ ch ≤ '9') :
    ds.foldl (fun (acc : Int) ch => acc * 10 + ((ch.toNat : Int) - 48)) 0
      = (decimalValue ds : Int) := by
  induction ds using List.reverseRecOn with
  | nil => simp [decimalValue]
  | append_singleton xs x ih =>
    have hx := hd x (by simp)
    have hx48 : 48 ≤ x.toNat := hx.1
    have ih2 := ih (fun ch hch => hd ch (by simp [hch]))
    rw [List.foldl_append]
    simp only [List.foldl_cons, List.foldl_nil]
    rw [ih2]
    simp only [decimalValue, List.reverse_append, List.reverse_cons, List.reverse_nil,
      List.nil_append, List.singleton_append, List.map_cons, Nat.ofDigits_cons]
    push_cast [Nat.cast_sub hx48]
    ring

/-- The digits `Atoi` reads are the characters of the string after the sign. -/
theorem Atoi_digits (s : String) :
    ∃ digits : List Char,
      ((s.toList = '-' :: digits) ∨ (s.toList = '+' :: digits) ∨
        (s.toList = digits ∧ s.toList.head? ≠ some '-' ∧ s.toList.head? ≠ some '+')) ∧
      Atoi s =
        if digits = [] then none
        else if digits.all (fun ch => decide ('0' ≤ ch ∧ ch ≤ '9')) then
          (if -(2 ^ 63) ≤ (if s.toList.head? = some '-' then
                -(digits.foldl (fun (acc : Int) ch => acc * 10 + ((ch.toNat : Int) - 48)) 0)
              else digits.foldl (fun (acc : Int) ch => acc * 10 + ((ch.toNat : Int) - 48)) 0) ∧
              (if s.toList.head? = some '-' then
                -(digits.foldl (fun (acc : Int) ch => acc * 10 + ((ch.toNat : Int) - 48)) 0)
              else digits.foldl (fun (acc : Int) ch => acc * 10 + ((ch.toNat : Int) - 48)) 0)
                < 2 ^ 63 then
            some (if s.toList.head? = some '-' then
                -(digits.foldl (fun (acc : Int) ch => acc * 10 + ((ch.toNat : Int) - 48)) 0)
              else digits.foldl (fun (acc : Int) ch => acc * 10 + ((ch.toNat : Int) - 48)) 0)
          else none)
        else none := by
  unfold Atoi
  split
  · next rest h => exact ⟨rest, Or.inl h, rfl⟩
  · next rest h => exact ⟨rest, Or.inr (Or.inl h), rfl⟩
  · next cs h1 h2 =>
    refine ⟨s.toList, Or.inr (Or.inr ⟨rfl, ?_, ?_⟩), rfl⟩
    · intro h
      cases hcs : s.toList with
      | nil => rw [hcs] at h; simp at h
      | cons c rest =>
        rw [hcs] at h
        simp only [List.head?_cons, Option.some.injEq] at h
        exact h1 rest (by rw [hcs, h])
    · intro h
      cases hcs : s.toList with
      | nil => rw [hcs] at h; simp at h
      | cons c rest =>
        rw [hcs] at h
        simp only [List.head?_cons, Option.some.injEq] at h
        exact h2 rest (by rw [hcs, h])

/-- The result of `Atoi` is decided by the digits it reads and by the signed
number `v` they write. -/
theorem Atoi_cases (s : String) :
    ∃ (digits : List Char) (v : Int),
      ((s.toList = '-' :: digits) ∨ (s.toList = '+' :: digits) ∨
        (s.toList = digits ∧ s.toList.head? ≠ some '-' ∧ s.toList.head? ≠ some '+')) ∧
      v = (if s.toList.head? = some '-' then
            -(digits.foldl (fun (acc : Int) ch => acc * 10 + ((ch.toNat : Int) - 48)) 0)
          else digits.foldl (fun (acc : Int) ch => acc * 10 + ((ch.toNat : Int) - 48)) 0) ∧
      Atoi s =
        if digits = [] then none
        else if digits.all (fun ch => decide ('0' ≤ ch ∧ ch ≤ '9')) then
          (if -(2 ^ 63) ≤ v ∧ v < 2 ^ 63 then some v else none)
        else none := by
  obtain ⟨digits, hcase, hA⟩ := Atoi_digits s
  exact ⟨digits, _, hcase, rfl, hA⟩

theorem not_digit_minus : ¬ ('0' ≤ '-' ∧ '-' ≤ '9') := by decide

theorem not_digit_plus : ¬ ('0' ≤ '+' ∧ '+' ≤ '9') := by decide

theorem head_plus_ne_minus (digits : List Char) : ¬ ('+' :: digits).head? = some '-' := by
  rw [List.head?_cons]
  intro h
  exact absurd (Option.some.inj h) (by decide)

/-- `Atoi` accepts exactly the valid integers, with their value. -/
theorem Atoi_eq_some_iff (s : String) (n : Int) : Atoi s = some n ↔ validInt s n := by
  obtain ⟨digits, v, hcase, hv, hA⟩ := Atoi_cases s
  rw [hA]
  constructor
  · intro h
    by_cases hne : digits = []
    · rw [if_pos hne] at h; exact absurd h (by simp)
    rw [if_neg hne] at h
    by_cases hall : digits.all (fun ch => decide ('0' ≤ ch ∧ ch ≤ '9')) = true
    swap
    · rw [if_neg hall] at h; exact absurd h (by simp)
    rw [if_pos hall] at h
    have hd : ∀ ch ∈ digits, '0' ≤ ch ∧ ch ≤ '9' := by
      intro ch hch
      exact of_decide_eq_true (List.all_eq_true.1 hall ch hch)
    by_cases hrange : -(2 ^ 63) ≤ v ∧ v < 2 ^ 63
    swap
    · rw [if_neg hrange] at h; exact absurd h (by simp)
    rw [if_pos hrange] at h
    have hn : v = n := Option.some.inj h
    rw [decimalValue_eq digits hd] at hv
    refine ⟨digits, hne, hd, ?_, ?_⟩
    · rw [← hn]; exact hrange
    · rw [← hn]
      rcases hcase with h1 | h1 | ⟨h1, h2, _⟩
      · have hh : s.toList.head? = some '-' := by rw [h1]; rfl
        rw [if_pos hh] at hv
        exact Or.inr (Or.inr ⟨h1, hv⟩)
      · have hh : ¬ s.toList.head? = some '-' := by rw [h1]; exact head_plus_ne_minus digits
        rw [if_neg hh] at hv
        exact Or.inr (Or.inl ⟨h1, hv⟩)
      · rw [if_neg h2] at hv
        exact Or.inl ⟨h1, hv⟩
  · rintro ⟨ds, hne, hd, hrange, hform⟩
    -- the digits `Atoi` reads are the digits of the valid integer
    have hkey : digits = ds ∧
        n = (if s.toList.head? = some '-' then -(decimalValue ds : Int)
             else (decimalValue ds : Int)) := by
      rcases hcase with h1 | h1 | ⟨h1, h2, h3⟩
      · rcases hform with ⟨h4, h5⟩ | ⟨h4, h5⟩ | ⟨h4, h5⟩
        · rw [h1] at h4
          exact absurd (hd '-' (by rw [← h4]; simp)) not_digit_minus
        · rw [h1] at h4
          exact absurd (List.cons.inj h4).1 (by decide)
        · have hh : s.toList.head? = some '-' := by rw [h1]; rfl
          rw [h1] at h4
          exact ⟨(List.cons.inj h4).2, by rw [if_pos hh]; exact h5⟩
      · have hh : ¬ s.toList.head? = some '-' := by rw [h1]; exact head_plus_ne_minus digits
        rcases hform with ⟨h4, h5⟩ | ⟨h4, h5⟩ | ⟨h4, h5⟩
        · rw [h1] at h4
          exact absurd (hd '+' (by rw [← h4]; simp)) not_digit_plus
        · rw [h1] at h4
          exact ⟨(List.cons.inj h4).2, by rw [if_neg hh]; exact h5⟩
        · rw [h1] at h4
          exact absurd (List.cons.inj h4).1 (by decide)
      · rcases hform with ⟨h4, h5⟩ | ⟨h4, h5⟩ | ⟨h4, h5⟩
        · exact ⟨h1.symm.trans h4, by rw [if_neg h2]; exact h5⟩
        · exact absurd (by rw [h4]; rfl) h3
        · exact absurd (by rw [h4]; rfl) h2
    obtain ⟨hdig, hval⟩ := hkey
    subst hdig
    have hall : digits.all (fun ch => decide ('0' ≤ ch ∧ ch ≤ '9')) = true :=
      List.all_eq_true.2 (fun ch hch => decide_eq_true (hd ch hch))
    rw [decimalValue_eq digits hd] at hv
    have hvn : v = n := by rw [hv, hval]
    have hrange2 : -(2 ^ 63) ≤ v ∧ v < 2 ^ 63 := by rw [hvn]; exact hrange
    rw [if_neg hne, if_pos hall, if_pos hrange2, hvn]

/-- `Atoi` fails exactly on the strings that are not valid integers. -/
theorem Atoi_eq_none_iff (s : String) : Atoi s = none ↔ ∀ n, ¬ validInt s n := by
  constructor
  · intro h n hv
    rw [(Atoi_eq_some_iff s n).2 hv] at h
    exact absurd h (by simp)
  · intro h
    cases hA : Atoi s with
    | none => rfl
    | some n => exact absurd ((Atoi_eq_some_iff s n).1 hA) (h n)

/-- C14: for every request whose raw query parses.  When the limit parameter is
a valid integer (an optional sign and decimal digits, the value fitting an
`int`), `statsHandler` calls the controller with the subreddit parameter and
that integer value; when it is not, which is the case when the parameter is
absent, it calls the controller with 5.  A controller that records its
arguments shows the values passed, two controllers that answer this one call
alike get the same response, and whenever the call returns no error the response
is 200 with the controller's stats. -/
theorem C14_stats_handler_limit (h : handler) (params : Values) :
    (∀ n, validInt (Values.Get params "limit") n →
      statsHandler { controller := recordingController } { query := .ok params }
        = some ⟨200, .json ⟨[{ Name := Values.Get params "sub", Title := "", Author := "",
                               UpVotes := n }], []⟩⟩ ∧
      (∀ h2 : handler, h2.controller.Stats (Values.Get params "sub") n
          = h.controller.Stats (Values.Get params "sub") n →
        statsHandler h2 { query := .ok params } = statsHandler h { query := .ok params }) ∧
      (∀ links users,
        h.controller.Stats (Values.Get params "sub") n = some (links, users, none) →
        statsHandler h { query := .ok params }
          = some ⟨200, .json { Posts := links, Users := users }⟩)) ∧
    ((∀ n, ¬ validInt (Values.Get params "limit") n) →
      statsHandler { controller := recordingController } { query := .ok params }
        = some ⟨200, .json ⟨[{ Name := Values.Get params "sub", Title := "", Author := "",
                               UpVotes := 5 }], []⟩⟩ ∧
      (∀ h2 : handler, h2.controller.Stats (Values.Get params "sub") 5
          = h.controller.Stats (Values.Get params "sub") 5 →
        statsHandler h2 { query := .ok params } = statsHandler h { query := .ok params }) ∧
      (∀ links users,
        h.controller.Stats (Values.Get params "sub") 5 = some (links, users, none) →
        statsHandler h { query := .ok params }
          = some ⟨200, .json { Posts := links, Users := users }⟩)) ∧
    (mapGet params "limit" = none → ∀ n, ¬ validInt (Values.Get params "limit") n) := by
  refine ⟨?_, ?_, ?_⟩
  · intro n hvalid
    have hn := (Atoi_eq_some_iff _ n).2 hvalid
    refine ⟨?_, ?_, ?_⟩
    · simp only [statsHandler, hn, recordingController]
    · intro h2 hsame
      simp only [statsHandler, hn, hsame]
    · intro links users hstats
      simp only [statsHandler, hn, hstats]
  · intro hinvalid
    have hn := (Atoi_eq_none_iff _).2 hinvalid
    refine ⟨?_, ?_, ?_⟩
    · simp only [statsHandler, hn, recordingController]
    · intro h2 hsame
      simp only [statsHandler, hn, hsame]
    · intro links users hstats
      simp only [statsHandler, hn, hstats]
  · intro habsent
    refine (Atoi_eq_none_iff _).1 ?_
    simp only [Values.Get, habsent]
    decide

/-- The requests `sub=example&limit=1` and `sub=example&limit=abc` on a
controller holding the fixture store under "example" satisfy the hypotheses of
C14: with the valid limit 1 the response holds one item and one contributor,
with the limit abc the controller is called with 5 and the response holds all
of them. -/
theorem C14_stats_handler_limit_witness :
    validInt (Values.Get [("sub", ["example"]), ("limit", ["1"])] "limit") 1 ∧
    statsHandler
        { controller := controller.asController { processors := [("example",
            processor.asProcessor { links := [("l1", l1), ("l2", l2), ("l3", l3)],
                                    users := [("u1", u1), ("u2", u2)] })] } }
        { query := .ok [("sub", ["example"]), ("limit", ["1"])] }
      = some ⟨200, .json ⟨[toLinkStats l3], [{ Name := "u2", PostCount := 2 }]⟩⟩ ∧
    (∀ n, ¬ validInt (Values.Get [("sub", ["example"]), ("limit", ["abc"])] "limit") n) ∧
    statsHandler
        { controller := controller.asController { processors := [("example",
            processor.asProcessor { links := [("l1", l1), ("l2", l2), ("l3", l3)],
                                    users := [("u1", u1), ("u2", u2)] })] } }
        { query := .ok [("sub", ["example"]), ("limit", ["abc"])] }
      = some ⟨200, .json ⟨[toLinkStats l3, toLinkStats l2, toLinkStats l1],
                          [{ Name := "u2", PostCount := 2 }, { Name := "u1", PostCount := 1 }]⟩⟩ :=
  ⟨⟨['1'], by decide, by decide, by decide, Or.inl ⟨by decide, by decide⟩⟩,
   ((C14_stats_handler_limit
      { controller := controller.asController { processors := [("example",
          processor.asProcessor { links := [("l1", l1), ("l2", l2), ("l3", l3)],
                                  users := [("u1", u1), ("u2", u2)] })] } }
      [("sub", ["example"]), ("limit", ["1"])]).1 1
      ⟨['1'], by decide, by decide, by decide, Or.inl ⟨by decide, by decide⟩⟩).2.2 _ _
      (by decide),
   (Atoi_eq_none_iff _).1 (by decide),
   ((C14_stats_handler_limit
      { controller := controller.asController { processors := [("example",
          processor.asProcessor { links := [("l1", l1), ("l2", l2), ("l3", l3)],
                                  users := [("u1", u1), ("u2", u2)] })] } }
      [("sub", ["example"]), ("limit", ["abc"])]).2.1
      ((Atoi_eq_none_iff _).1 (by decide))).2.2 _ _ (by decide)⟩

end RedditDemo
